import Mathlib

/-!
Shallow embedding of the `validation` Go package (`validator.go`): a
struct-tag driven field validator with checkers `len`, `in`, `min`, `max`
and `between`, returning an aggregate of per-field validation errors.

Modelling conventions:
* Go strings are byte sequences; the validator only compares them, splits
  them on a separator byte and takes their length, so they are modelled as
  lists of characters (`GoStr`) with `len` = list length.
* `strconv.Atoi` is modelled as `atoi : GoStr → Option Int` (base-10 signed
  integer, whole string; `none` is a parse error).  Go additionally range
  checks against 64-bit bounds, which no behaviour here depends on.
* Go map iteration order (over the token set built by `validateIn`) is
  nondeterministic.  It is modelled by an explicit traversal oracle
  `ord : List GoStr → List GoStr` applied to the deduplicated token list;
  an admissible oracle returns a permutation of its argument.
* A runtime panic (the out-of-range index in `validateBetween`, or the
  `Kind` call on the nil `reflect.Type` for a nil input) is the explicit
  outcome `panics`.
-/

namespace TagValidation

/-- A Go string: list of characters, `len` = list length. -/
abbrev GoStr := List Char

/-- Coerce a Lean string literal to the `GoStr` model. -/
def gs (s : String) : GoStr := s.data

/-- `strings.Split(s, string(sep))` for a one-byte separator: split at each
occurrence of the separator; a string with `n` separators yields `n + 1`
parts, and `Split("", sep)` is `[""]`. -/
def splitOnChar (sep : Char) : GoStr → List GoStr
  | [] => [[]]
  | c :: rest =>
    if c = sep then [] :: splitOnChar sep rest
    else
      match splitOnChar sep rest with
      | [] => [[c]]
      | p :: ps => (c :: p) :: ps

/-- Decimal digit value of a character, if it is a digit. -/
def digitVal (c : Char) : Option Nat :=
  if c.isDigit then some (c.toNat - 48) else none

/-- Accumulating parser for an all-digit string. -/
def parseDigitsAux (acc : Nat) : GoStr → Option Nat
  | [] => some acc
  | c :: rest =>
    match digitVal c with
    | none => none
    | some d => parseDigitsAux (10 * acc + d) rest

/-- Parse a non-empty all-digit string as a natural number. -/
def parseDigits : GoStr → Option Nat
  | [] => none
  | c :: rest => parseDigitsAux 0 (c :: rest)

/-- `strconv.Atoi`: optional sign followed by at least one decimal digit,
consuming the whole string. -/
def atoi : GoStr → Option Int
  | '+' :: rest => (parseDigits rest).map Int.ofNat
  | '-' :: rest => (parseDigits rest).map fun n => -(n : Int)
  | s => (parseDigits s).map Int.ofNat

/-- The runtime shapes `v.Interface().(type)` distinguishes: the four
supported cases of each checker's switch, and `other` for every type that
falls into the `default` arm. -/
inductive GoValue
  | str (s : GoStr)
  | int (n : Int)
  | strSlice (xs : List GoStr)
  | intSlice (xs : List Int)
  | other
deriving DecidableEq

/-- The inner error of a `ValidationError`, identified (as callers do) by
its message.  Constructors carrying a `Nat` are the `errors.Errorf`
messages with a `%d` position. -/
inductive VErr
  | invalidSyntax
  | unexported
  | unexpectedOption
  | lengthsDontMatch
  | fieldValueNotAllowed
  | strLenLess
  | intLess
  | strLenNotAllowed
  | strLenMore
  | intMore
  | strPosShorter (i : Nat)
  | strPosNotAllowed (i : Nat)
  | strPosLonger (i : Nat)
  | intPosLess (i : Nat)
  | intPosMore (i : Nat)
deriving DecidableEq

/-- A Go `error` value as `Validate` discriminates it: either a
`ValidationError`, or any other (non-validation) error.  No checker in the
source ever constructs the second form. -/
inductive GoErr
  | validation (e : VErr)
  | internal (s : GoStr)
deriving DecidableEq

/-- Result of one checker call `validator(value, param)`: `(true, nil)`,
`(false, err)`, or a runtime panic. -/
inductive CheckOutcome
  | ok
  | fail (e : GoErr)
  | panics
deriving DecidableEq

/-- Loop of `validateLen`'s `[]string` case: first element whose length
differs from `expected` fails with its position. -/
def lenStrSliceLoop (expected : Int) (i : Nat) : List GoStr → CheckOutcome
  | [] => .ok
  | e :: rest =>
    if (e.length : Int) ≠ expected then .fail (.validation (.strPosShorter i))
    else lenStrSliceLoop expected (i + 1) rest

/-- `validateLen`. -/
def validateLen (v : GoValue) (value : GoStr) : CheckOutcome :=
  match atoi value with
  | none => .fail (.validation .invalidSyntax)
  | some expected =>
    match v with
    | .str s =>
      if (s.length : Int) ≠ expected then .fail (.validation .lengthsDontMatch)
      else .ok
    | .strSlice xs => lenStrSliceLoop expected 0 xs
    | _ => .fail (.validation .invalidSyntax)

/-- Deduplication with a seen-accumulator: the set of keys of the Go map
`tokensSet`, as a duplicate-free list.  The concrete enumeration position
is immaterial: every use is either a membership test or an `ord`-permuted
traversal. -/
def dedupAcc (seen : List GoStr) : List GoStr → List GoStr
  | [] => []
  | x :: rest =>
    if x ∈ seen then dedupAcc seen rest
    else x :: dedupAcc (x :: seen) rest

/-- The key set of the map built from `tokens` in `validateIn`. -/
def tokensSetOf (tokens : List GoStr) : List GoStr := dedupAcc [] tokens

/-- Search loop of `validateIn`'s `int` case: `for key := range tokensSet`,
returning a syntax error at the first unparseable key and success at the
first key equal to the target. -/
def inIntSearch (target : Int) : List GoStr → CheckOutcome
  | [] => .fail (.validation .fieldValueNotAllowed)
  | k :: rest =>
    match atoi k with
    | none => .fail (.validation .invalidSyntax)
    | some val => if val = target then .ok else inIntSearch target rest

/-- Loop of `validateIn`'s `[]string` case. -/
def inStrSliceLoop (tokensSet : List GoStr) (i : Nat) : List GoStr → CheckOutcome
  | [] => .ok
  | e :: rest =>
    if e ∈ tokensSet then inStrSliceLoop tokensSet (i + 1) rest
    else .fail (.validation (.strPosNotAllowed i))

/-- Loop of `validateIn`'s `[]int` case. -/
def inIntSliceLoop (tokensSetInt : List Int) (i : Nat) : List Int → CheckOutcome
  | [] => .ok
  | e :: rest =>
    if e ∈ tokensSetInt then inIntSliceLoop tokensSetInt (i + 1) rest
    else .fail (.validation (.intPosLess i))

/-- `validateIn`.  `ord` is the traversal oracle for the token set; only
the scalar `int` case observes it, because only that loop both iterates
the set and can exit early with different results.  The `[]int` case also
iterates the set (to build `tokensSetInt`), but its result is the same for
every traversal: it returns `invalidSyntax` as soon as any key fails to
parse — the same error value whichever unparseable key comes first — and
otherwise builds the full parsed set. -/
def validateIn (ord : List GoStr → List GoStr) (v : GoValue) (value : GoStr) :
    CheckOutcome :=
  if value.length = 0 then .fail (.validation .fieldValueNotAllowed)
  else
    let tokensSet := tokensSetOf (splitOnChar ',' value)
    match v with
    | .str s =>
      if s ∈ tokensSet then .ok else .fail (.validation .fieldValueNotAllowed)
    | .int n => inIntSearch n (ord tokensSet)
    | .strSlice xs => inStrSliceLoop tokensSet 0 xs
    | .intSlice xs =>
      match tokensSet.mapM atoi with
      | none => .fail (.validation .invalidSyntax)
      | some tokensSetInt => inIntSliceLoop tokensSetInt 0 xs
    | .other => .fail (.validation .invalidSyntax)

/-- Loop of `validateMin`'s `[]int` case. -/
def minIntSliceLoop (mn : Int) (i : Nat) : List Int → CheckOutcome
  | [] => .ok
  | e :: rest =>
    if e < mn then .fail (.validation (.intPosLess i))
    else minIntSliceLoop mn (i + 1) rest

/-- Loop of `validateMin`'s `[]string` case. -/
def minStrSliceLoop (mn : Int) (i : Nat) : List GoStr → CheckOutcome
  | [] => .ok
  | e :: rest =>
    if (e.length : Int) < mn then .fail (.validation (.strPosShorter i))
    else minStrSliceLoop mn (i + 1) rest

/-- `validateMin`. -/
def validateMin (v : GoValue) (value : GoStr) : CheckOutcome :=
  match atoi value with
  | none => .fail (.validation .invalidSyntax)
  | some mn =>
    match v with
    | .str s => if (s.length : Int) ≥ mn then .ok else .fail (.validation .strLenLess)
    | .int n => if n ≥ mn then .ok else .fail (.validation .intLess)
    | .intSlice xs => minIntSliceLoop mn 0 xs
    | .strSlice xs => minStrSliceLoop mn 0 xs
    | .other => .fail (.validation .invalidSyntax)

/-- Loop of `validateMax`'s `[]int` case. -/
def maxIntSliceLoop (mx : Int) (i : Nat) : List Int → CheckOutcome
  | [] => .ok
  | e :: rest =>
    if e > mx then .fail (.validation (.intPosMore i))
    else maxIntSliceLoop mx (i + 1) rest

/-- Loop of `validateMax`'s `[]string` case. -/
def maxStrSliceLoop (mx : Int) (i : Nat) : List GoStr → CheckOutcome
  | [] => .ok
  | e :: rest =>
    if (e.length : Int) > mx then .fail (.validation (.strPosLonger i))
    else maxStrSliceLoop mx (i + 1) rest

/-- `validateMax`. -/
def validateMax (v : GoValue) (value : GoStr) : CheckOutcome :=
  match atoi value with
  | none => .fail (.validation .invalidSyntax)
  | some mx =>
    match v with
    | .str s => if (s.length : Int) ≤ mx then .ok else .fail (.validation .strLenMore)
    | .int n => if n ≤ mx then .ok else .fail (.validation .intMore)
    | .intSlice xs => maxIntSliceLoop mx 0 xs
    | .strSlice xs => maxStrSliceLoop mx 0 xs
    | .other => .fail (.validation .invalidSyntax)

/-- Loop of `validateBetween`'s `[]int` case. -/
def betweenIntSliceLoop (mn mx : Int) (i : Nat) : List Int → CheckOutcome
  | [] => .ok
  | e :: rest =>
    if e > mx ∨ e < mn then .fail (.validation (.intPosMore i))
    else betweenIntSliceLoop mn mx (i + 1) rest

/-- Loop of `validateBetween`'s `[]string` case. -/
def betweenStrSliceLoop (mn mx : Int) (i : Nat) : List GoStr → CheckOutcome
  | [] => .ok
  | e :: rest =>
    if (e.length : Int) > mx ∨ (e.length : Int) < mn then
      .fail (.validation (.strPosLonger i))
    else betweenStrSliceLoop mn mx (i + 1) rest

/-- Body of `validateBetween` after the split.  The source reads
`min, err := strconv.Atoi(limits[0]); max, err := strconv.Atoi(limits[1])`:
the first parse's error is overwritten by the second's, so only the second
parse is checked, and a failed first parse leaves `min` at `Atoi`'s zero
value.  With fewer than two parts, the index `limits[1]` is out of range:
a runtime panic. -/
def betweenLimits (v : GoValue) (limits : List GoStr) : CheckOutcome :=
  match limits with
  | l0 :: l1 :: _ =>
    let mn : Int := (atoi l0).getD 0
    match atoi l1 with
    | none => .fail (.validation .invalidSyntax)
    | some mx =>
      match v with
      | .str s =>
        if mn ≤ (s.length : Int) ∧ (s.length : Int) ≤ mx then .ok
        else .fail (.validation .strLenNotAllowed)
      | .int n =>
        if mn ≤ n ∧ n ≤ mx then .ok
        else .fail (.validation .intMore)
      | .intSlice xs => betweenIntSliceLoop mn mx 0 xs
      | .strSlice xs => betweenStrSliceLoop mn mx 0 xs
      | .other => .fail (.validation .invalidSyntax)
  | _ => .panics

/-- `validateBetween`. -/
def validateBetween (v : GoValue) (value : GoStr) : CheckOutcome :=
  betweenLimits v (splitOnChar ',' value)

/-- One declared struct field as the engine sees it: the `validate` tag
value when the tag is present, exportedness, and the runtime value. -/
structure Field where
  tag : Option GoStr
  exported : Bool
  value : GoValue
deriving DecidableEq

/-- The keys of the `validators` dispatch map. -/
inductive RuleKind
  | lenR
  | inR
  | minR
  | maxR
  | betweenR
deriving DecidableEq

/-- Lookup in the `validators` map. -/
def lookupRule (kind : GoStr) : Option RuleKind :=
  if kind = gs "len" then some .lenR
  else if kind = gs "in" then some .inR
  else if kind = gs "min" then some .minR
  else if kind = gs "max" then some .maxR
  else if kind = gs "between" then some .betweenR
  else none

/-- Run the checker a `RuleKind` dispatches to. -/
def runChecker (ord : List GoStr → List GoStr) (r : RuleKind) (v : GoValue)
    (param : GoStr) : CheckOutcome :=
  match r with
  | .lenR => validateLen v param
  | .inR => validateIn ord v param
  | .minR => validateMin v param
  | .maxR => validateMax v param
  | .betweenR => validateBetween v param

/-- What one iteration of `Validate`'s field loop does with a field. -/
inductive FieldOutcome
  | skip
  | okF
  | collect (e : VErr)
  | abort (s : GoStr)
  | panicF
deriving DecidableEq

/-- One iteration of `Validate`'s field loop: tag lookup, exportedness
check, split on `:` into exactly two parts, dispatch-map lookup, checker
call, and the `err.(ValidationError)` type assertion on failure. -/
def fieldOutcome (ord : List GoStr → List GoStr) (f : Field) : FieldOutcome :=
  match f.tag with
  | none => .skip
  | some tagValue =>
    match f.exported with
    | false => .collect .unexported
    | true =>
      match splitOnChar ':' tagValue with
      | [kind, param] =>
        match lookupRule kind with
        | none => .collect .unexpectedOption
        | some r =>
          match runChecker ord r f.value param with
          | .ok => .okF
          | .fail (.validation e) => .collect e
          | .fail (.internal s) => .abort s
          | .panics => .panicF
      | _ => .collect .invalidSyntax

/-- The error a field contributes to the aggregate, if any. -/
def fieldErr (ord : List GoStr → List GoStr) (f : Field) : Option VErr :=
  match fieldOutcome ord f with
  | .collect e => some e
  | _ => none

/-- Result of running the field loop to completion (or aborting). -/
inductive CollectResult
  | done (vs : List VErr)
  | aborted (s : GoStr)
  | panicked
deriving DecidableEq

/-- `Validate`'s field loop: collect one error per failing field in
declaration order; a non-`ValidationError` checker error aborts the whole
call, a panic propagates. -/
def collectFields (ord : List GoStr → List GoStr) : List Field → CollectResult
  | [] => .done []
  | f :: rest =>
    match fieldOutcome ord f with
    | .skip => collectFields ord rest
    | .okF => collectFields ord rest
    | .collect e =>
      match collectFields ord rest with
      | .done vs => .done (e :: vs)
      | r => r
    | .abort s => .aborted s
    | .panicF => .panicked

/-- The argument of `Validate`, by the shape `reflect` reports: a nil
interface (whose `reflect.TypeOf` is nil, so `Kind()` panics), a
representative non-struct dynamic type (map, string/scalar, int, pointer —
a pointer to an interface such as `new(any)` is itself of pointer kind),
or a struct with its declared fields in order. -/
inductive GoAny
  | nilAny
  | mapAny
  | stringAny
  | intAny
  | ptrAny
  | structAny (fields : List Field)
deriving DecidableEq

/-- `Validate`'s result: nil, `ErrNotStruct`, a non-empty
`ValidationErrors` aggregate, the defensive bare-error return, or a
runtime panic. -/
inductive ValidateResult
  | ok
  | notStruct
  | aggregate (vs : List VErr)
  | internalErr (s : GoStr)
  | panics
deriving DecidableEq

/-- `Validate`. -/
def Validate (ord : List GoStr → List GoStr) : GoAny → ValidateResult
  | .nilAny => .panics
  | .mapAny => .notStruct
  | .stringAny => .notStruct
  | .intAny => .notStruct
  | .ptrAny => .notStruct
  | .structAny fields =>
    match collectFields ord fields with
    | .done [] => .ok
    | .done vs => .aggregate vs
    | .aborted s => .internalErr s
    | .panicked => .panics

/-- The apostrophe character (in messages such as `Field value isn't
allowed`). -/
def apos : Char := Char.ofNat 39

/-- Decimal rendering of a position for the `%d` of `errors.Errorf`. -/
def natStr (n : Nat) : GoStr := Nat.toDigits 10 n

/-- The message of each error, exactly as in the source. -/
def errMessage : VErr → GoStr
  | .invalidSyntax => gs "invalid validator syntax"
  | .unexported => gs "validation for unexported field is not allowed"
  | .unexpectedOption => gs "Unexpected validator option"
  | .lengthsDontMatch => gs "lengths don" ++ [apos] ++ gs "t match"
  | .fieldValueNotAllowed => gs "Field value isn" ++ [apos] ++ gs "t allowed"
  | .strLenLess => gs "String length is less than allowed"
  | .intLess => gs "Integer is less than allowed"
  | .strLenNotAllowed => gs "String length is not allowed"
  | .strLenMore => gs "String length is more than allowed"
  | .intMore => gs "Integer is more than allowed"
  | .strPosShorter i =>
    gs "The string on position " ++ natStr i ++ gs " is shorter than allowed"
  | .strPosNotAllowed i =>
    gs "The string on position " ++ natStr i ++ gs " is not allowed"
  | .strPosLonger i =>
    gs "The string on position " ++ natStr i ++ gs " is longer than allowed"
  | .intPosLess i =>
    gs "The integer on position " ++ natStr i ++ gs " is less than allowed"
  | .intPosMore i =>
    gs "The integer on position " ++ natStr i ++ gs " is more than allowed"

/-- `ValidationErrors.Error`: concatenate the members' messages with no
separator, front to back. -/
def validationErrorsError (vs : List VErr) : GoStr :=
  vs.foldl (fun res v => res ++ errMessage v) []

/-! Every checker only ever fails with a `ValidationError`: no return path
constructs a bare error.  These lemmas walk every loop and every switch
arm. -/

theorem lenStrSliceLoop_not_internal (expected : Int) (xs : List GoStr) :
    ∀ (i : Nat) (s : GoStr),
      lenStrSliceLoop expected i xs ≠ CheckOutcome.fail (.internal s) := by
  induction xs with
  | nil => intro i s h; simp [lenStrSliceLoop] at h
  | cons e rest ih =>
    intro i s h
    simp only [lenStrSliceLoop] at h
    split at h
    · simp at h
    · exact ih (i + 1) s h

theorem inIntSearch_not_internal (target : Int) (l : List GoStr) :
    ∀ s : GoStr, inIntSearch target l ≠ CheckOutcome.fail (.internal s) := by
  induction l with
  | nil => intro s h; simp [inIntSearch] at h
  | cons k rest ih =>
    intro s h
    simp only [inIntSearch] at h
    split at h
    · simp at h
    · split at h
      · simp at h
      · exact ih s h

theorem inStrSliceLoop_not_internal (tokensSet : List GoStr) (xs : List GoStr) :
    ∀ (i : Nat) (s : GoStr),
      inStrSliceLoop tokensSet i xs ≠ CheckOutcome.fail (.internal s) := by
  induction xs with
  | nil => intro i s h; simp [inStrSliceLoop] at h
  | cons e rest ih =>
    intro i s h
    simp only [inStrSliceLoop] at h
    split at h
    · exact ih (i + 1) s h
    · simp at h

theorem inIntSliceLoop_not_internal (tokensSetInt : List Int) (xs : List Int) :
    ∀ (i : Nat) (s : GoStr),
      inIntSliceLoop tokensSetInt i xs ≠ CheckOutcome.fail (.internal s) := by
  induction xs with
  | nil => intro i s h; simp [inIntSliceLoop] at h
  | cons e rest ih =>
    intro i s h
    simp only [inIntSliceLoop] at h
    split at h
    · exact ih (i + 1) s h
    · simp at h

theorem minIntSliceLoop_not_internal (mn : Int) (xs : List Int) :
    ∀ (i : Nat) (s : GoStr),
      minIntSliceLoop mn i xs ≠ CheckOutcome.fail (.internal s) := by
  induction xs with
  | nil => intro i s h; simp [minIntSliceLoop] at h
  | cons e rest ih =>
    intro i s h
    simp only [minIntSliceLoop] at h
    split at h
    · simp at h
    · exact ih (i + 1) s h

theorem minStrSliceLoop_not_internal (mn : Int) (xs : List GoStr) :
    ∀ (i : Nat) (s : GoStr),
      minStrSliceLoop mn i xs ≠ CheckOutcome.fail (.internal s) := by
  induction xs with
  | nil => intro i s h; simp [minStrSliceLoop] at h
  | cons e rest ih =>
    intro i s h
    simp only [minStrSliceLoop] at h
    split at h
    · simp at h
    · exact ih (i + 1) s h

theorem maxIntSliceLoop_not_internal (mx : Int) (xs : List Int) :
    ∀ (i : Nat) (s : GoStr),
      maxIntSliceLoop mx i xs ≠ CheckOutcome.fail (.internal s) := by
  induction xs with
  | nil => intro i s h; simp [maxIntSliceLoop] at h
  | cons e rest ih =>
    intro i s h
    simp only [maxIntSliceLoop] at h
    split at h
    · simp at h
    · exact ih (i + 1) s h

theorem maxStrSliceLoop_not_internal (mx : Int) (xs : List GoStr) :
    ∀ (i : Nat) (s : GoStr),
      maxStrSliceLoop mx i xs ≠ CheckOutcome.fail (.internal s) := by
  induction xs with
  | nil => intro i s h; simp [maxStrSliceLoop] at h
  | cons e rest ih =>
    intro i s h
    simp only [maxStrSliceLoop] at h
    split at h
    · simp at h
    · exact ih (i + 1) s h

theorem betweenIntSliceLoop_not_internal (mn mx : Int) (xs : List Int) :
    ∀ (i : Nat) (s : GoStr),
      betweenIntSliceLoop mn mx i xs ≠ CheckOutcome.fail (.internal s) := by
  induction xs with
  | nil => intro i s h; simp [betweenIntSliceLoop] at h
  | cons e rest ih =>
    intro i s h
    simp only [betweenIntSliceLoop] at h
    split at h
    · simp at h
    · exact ih (i + 1) s h

theorem betweenStrSliceLoop_not_internal (mn mx : Int) (xs : List GoStr) :
    ∀ (i : Nat) (s : GoStr),
      betweenStrSliceLoop mn mx i xs ≠ CheckOutcome.fail (.internal s) := by
  induction xs with
  | nil => intro i s h; simp [betweenStrSliceLoop] at h
  | cons e rest ih =>
    intro i s h
    simp only [betweenStrSliceLoop] at h
    split at h
    · simp at h
    · exact ih (i + 1) s h

theorem validateLen_not_internal (v : GoValue) (value : GoStr) (s : GoStr) :
    validateLen v value ≠ CheckOutcome.fail (.internal s) := by
  intro h
  unfold validateLen at h
  split at h
  · simp at h
  · split at h
    · split at h <;> simp at h
    · exact lenStrSliceLoop_not_internal _ _ _ _ h
    · simp at h

theorem validateIn_not_internal (ord : List GoStr → List GoStr) (v : GoValue)
    (value : GoStr) (s : GoStr) :
    validateIn ord v value ≠ CheckOutcome.fail (.internal s) := by
  intro h
  simp only [validateIn] at h
  split at h
  · simp at h
  · split at h
    · split at h <;> simp at h
    · exact inIntSearch_not_internal _ _ _ h
    · exact inStrSliceLoop_not_internal _ _ _ _ h
    · split at h
      · simp at h
      · exact inIntSliceLoop_not_internal _ _ _ _ h
    · simp at h

theorem validateMin_not_internal (v : GoValue) (value : GoStr) (s : GoStr) :
    validateMin v value ≠ CheckOutcome.fail (.internal s) := by
  intro h
  unfold validateMin at h
  split at h
  · simp at h
  · split at h
    · split at h <;> simp at h
    · split at h <;> simp at h
    · exact minIntSliceLoop_not_internal _ _ _ _ h
    · exact minStrSliceLoop_not_internal _ _ _ _ h
    · simp at h

theorem validateMax_not_internal (v : GoValue) (value : GoStr) (s : GoStr) :
    validateMax v value ≠ CheckOutcome.fail (.internal s) := by
  intro h
  unfold validateMax at h
  split at h
  · simp at h
  · split at h
    · split at h <;> simp at h
    · split at h <;> simp at h
    · exact maxIntSliceLoop_not_internal _ _ _ _ h
    · exact maxStrSliceLoop_not_internal _ _ _ _ h
    · simp at h

theorem betweenLimits_not_internal (v : GoValue) (limits : List GoStr) (s : GoStr) :
    betweenLimits v limits ≠ CheckOutcome.fail (.internal s) := by
  intro h
  simp only [betweenLimits] at h
  split at h
  · split at h
    · simp at h
    · split at h
      · split at h <;> simp at h
      · split at h <;> simp at h
      · exact betweenIntSliceLoop_not_internal _ _ _ _ _ h
      · exact betweenStrSliceLoop_not_internal _ _ _ _ _ h
      · simp at h
  · simp at h

theorem validateBetween_not_internal (v : GoValue) (value : GoStr) (s : GoStr) :
    validateBetween v value ≠ CheckOutcome.fail (.internal s) :=
  betweenLimits_not_internal v (splitOnChar ',' value) s

theorem runChecker_not_internal (ord : List GoStr → List GoStr) (r : RuleKind)
    (v : GoValue) (param : GoStr) (s : GoStr) :
    runChecker ord r v param ≠ CheckOutcome.fail (.internal s) := by
  cases r
  · exact validateLen_not_internal v param s
  · exact validateIn_not_internal ord v param s
  · exact validateMin_not_internal v param s
  · exact validateMax_not_internal v param s
  · exact validateBetween_not_internal v param s

/-- The field loop never takes the defensive abort path: the
`err.(ValidationError)` assertion always succeeds. -/
theorem fieldOutcome_not_abort (ord : List GoStr → List GoStr) (f : Field)
    (s : GoStr) : fieldOutcome ord f ≠ .abort s := by
  intro h
  unfold fieldOutcome at h
  split at h
  · simp at h
  · split at h
    · simp at h
    · split at h
      · split at h
        · simp at h
        · split at h
          · simp at h
          · simp at h
          · rename_i heq
            exact runChecker_not_internal _ _ _ _ _ heq
          · simp at h
      · simp at h

/-! Shape of the collected aggregate. -/

/-- When no field's checker panics, the field loop completes and the
collected errors are exactly the per-field errors, one at most per field,
in declaration order. -/
theorem collectFields_eq_filterMap (ord : List GoStr → List GoStr)
    (fields : List Field)
    (hnp : ∀ f ∈ fields, fieldOutcome ord f ≠ FieldOutcome.panicF) :
    collectFields ord fields = .done (fields.filterMap (fieldErr ord)) := by
  induction fields with
  | nil => rfl
  | cons f rest ih =>
    have hrest : ∀ g ∈ rest, fieldOutcome ord g ≠ FieldOutcome.panicF :=
      fun g hg => hnp g (List.mem_cons_of_mem _ hg)
    have hf := hnp f (List.mem_cons_self _ _)
    unfold collectFields
    rcases hout : fieldOutcome ord f
    · rw [ih hrest]
      simp [List.filterMap_cons, fieldErr, hout]
    · rw [ih hrest]
      simp [List.filterMap_cons, fieldErr, hout]
    · rw [ih hrest]
      simp [List.filterMap_cons, fieldErr, hout]
    · exact absurd hout (fieldOutcome_not_abort ord f _)
    · exact absurd hout hf

/-- Conversely, a completed field loop's result is that same list. -/
theorem collectFields_done_eq (ord : List GoStr → List GoStr)
    (fields : List Field) (vs : List VErr)
    (h : collectFields ord fields = .done vs) :
    vs = fields.filterMap (fieldErr ord) := by
  induction fields generalizing vs with
  | nil =>
    simp only [collectFields, CollectResult.done.injEq] at h
    simpa using h.symm
  | cons f rest ih =>
    unfold collectFields at h
    rcases hout : fieldOutcome ord f <;> rw [hout] at h
    · rw [ih vs h]
      simp [List.filterMap_cons, fieldErr, hout]
    · rw [ih vs h]
      simp [List.filterMap_cons, fieldErr, hout]
    · rcases hrec : collectFields ord rest <;> rw [hrec] at h
      · rename_i e vs'
        simp only [CollectResult.done.injEq] at h
        rw [← h, ih vs' hrec]
        simp [List.filterMap_cons, fieldErr, hout]
      · simp at h
      · simp at h
    · exact absurd hout (fieldOutcome_not_abort ord f _)
    · simp at h

/-- `Validate` reports an aggregate exactly when the field loop completed
with that (non-empty) list. -/
theorem validate_aggregate_inv (ord : List GoStr → List GoStr)
    (fields : List Field) (vs : List VErr)
    (h : Validate ord (.structAny fields) = .aggregate vs) :
    collectFields ord fields = .done vs ∧ vs ≠ [] := by
  rcases hc : collectFields ord fields with vs' | s | _
  · cases vs' with
    | nil =>
      have hv : Validate ord (.structAny fields) = .ok := by
        simp only [Validate, hc]
      rw [hv] at h
      simp at h
    | cons a l =>
      have hv : Validate ord (.structAny fields) = .aggregate (a :: l) := by
        simp only [Validate, hc]
      rw [hv] at h
      simp only [ValidateResult.aggregate.injEq] at h
      refine ⟨by rw [h], ?_⟩
      rw [← h]
      simp
  · have hv : Validate ord (.structAny fields) = .internalErr s := by
      simp only [Validate, hc]
    rw [hv] at h
    simp at h
  · have hv : Validate ord (.structAny fields) = .panics := by
      simp only [Validate, hc]
    rw [hv] at h
    simp at h

/-- The field loop never aborts with a bare error. -/
theorem collectFields_not_aborted (ord : List GoStr → List GoStr)
    (fields : List Field) :
    ∀ s : GoStr, collectFields ord fields ≠ .aborted s := by
  induction fields with
  | nil => intro s; simp [collectFields]
  | cons f rest ih =>
    intro s h
    unfold collectFields at h
    rcases hout : fieldOutcome ord f <;> rw [hout] at h
    · exact ih s h
    · exact ih s h
    · rcases hrec : collectFields ord rest <;> rw [hrec] at h
      · simp at h
      · exact ih _ hrec
      · simp at h
    · exact absurd hout (fieldOutcome_not_abort ord f _)
    · simp at h

/-- `ValidationErrors.Error` is the no-separator concatenation of the
members' messages. -/
theorem foldl_append_eq_join (vs : List VErr) :
    ∀ acc : GoStr,
      vs.foldl (fun res v => res ++ errMessage v) acc =
        acc ++ (vs.map errMessage).flatten := by
  induction vs with
  | nil => intro acc; simp
  | cons v rest ih =>
    intro acc
    simp [List.foldl_cons, ih, List.append_assoc]

/-! Membership in the deduplicated token set. -/

theorem mem_dedupAcc (x : GoStr) (l : List GoStr) :
    ∀ seen : List GoStr, x ∈ dedupAcc seen l ↔ x ∈ l ∧ x ∉ seen := by
  induction l with
  | nil => intro seen; simp [dedupAcc]
  | cons a rest ih =>
    intro seen
    simp only [dedupAcc]
    split
    · rename_i ha
      rw [ih seen]
      constructor
      · rintro ⟨hx, hs⟩
        exact ⟨List.mem_cons_of_mem _ hx, hs⟩
      · rintro ⟨hx, hs⟩
        rcases List.mem_cons.mp hx with rfl | hx'
        · exact absurd ha hs
        · exact ⟨hx', hs⟩
    · rename_i ha
      simp only [List.mem_cons, ih (a :: seen)]
      constructor
      · rintro (rfl | ⟨hx, hs⟩)
        · exact ⟨Or.inl rfl, ha⟩
        · exact ⟨Or.inr hx, fun hxs => hs (Or.inr hxs)⟩
      · rintro ⟨rfl | hx, hs⟩
        · exact Or.inl rfl
        · by_cases hxa : x = a
          · exact Or.inl hxa
          · exact Or.inr ⟨hx, fun hor => hor.elim hxa hs⟩

theorem mem_tokensSetOf (x : GoStr) (tokens : List GoStr) :
    x ∈ tokensSetOf tokens ↔ x ∈ tokens := by
  unfold tokensSetOf
  rw [mem_dedupAcc]
  simp

/-! Behaviour of the `int`-membership search loop. -/

/-- When no key parses to the target, the search cannot succeed, so the
first unparseable key it meets — whatever the traversal order — makes it
return the syntax error. -/
theorem inIntSearch_syntax_of_bad_no_match (n : Int) :
    ∀ l : List GoStr, (∃ t ∈ l, atoi t = none) → (∀ t ∈ l, atoi t ≠ some n) →
      inIntSearch n l = .fail (.validation .invalidSyntax) := by
  intro l
  induction l with
  | nil =>
    rintro ⟨t, ht, _⟩ _
    exact absurd ht (List.not_mem_nil t)
  | cons k rest ih =>
    rintro ⟨t, ht, hbad⟩ hnom
    rcases hak : atoi k with _ | val
    · simp only [inIntSearch, hak]
    · have hval : ¬ val = n := by
        intro e
        exact hnom k (List.mem_cons_self _ _) (by rw [hak, e])
      rw [show inIntSearch n (k :: rest) = inIntSearch n rest by
            simp only [inIntSearch, hak, if_neg hval]]
      apply ih
      · rcases List.mem_cons.mp ht with rfl | hmem
        · rw [hak] at hbad
          exact absurd hbad (by simp)
        · exact ⟨t, hmem, hbad⟩
      · intro u hu
        exact hnom u (List.mem_cons_of_mem _ hu)

/-- When every key parses, the search succeeds exactly when some key
parses to the target — a property of the key set alone, independent of
traversal order. -/
theorem inIntSearch_all_some (n : Int) :
    ∀ l : List GoStr, (∀ t ∈ l, (atoi t).isSome = true) →
      inIntSearch n l =
        (if l.any (fun t => decide (atoi t = some n)) then CheckOutcome.ok
         else .fail (.validation .fieldValueNotAllowed)) := by
  intro l
  induction l with
  | nil => intro _; simp [inIntSearch]
  | cons k rest ih =>
    intro hall
    have hk := hall k (List.mem_cons_self _ _)
    rcases hak : atoi k with _ | val
    · rw [hak] at hk
      simp at hk
    · by_cases hv : val = n
      · subst hv
        simp [inIntSearch, hak, List.any_cons]
      · rw [show inIntSearch n (k :: rest) = inIntSearch n rest by
              simp only [inIntSearch, hak, if_neg hv]]
        rw [ih (fun t ht => hall t (List.mem_cons_of_mem _ ht))]
        simp only [List.any_cons, hak]
        have hdec : decide (some val = some n) = false := by
          simp [hv]
        rw [hdec]
        simp

/-- `List.any` only depends on membership, so it is invariant under
permutation. -/
theorem any_eq_of_perm {α : Type} (p : α → Bool) {l1 l2 : List α}
    (h : l1.Perm l2) : l1.any p = l2.any p := by
  cases h1 : l1.any p with
  | true =>
    rcases List.any_eq_true.mp h1 with ⟨x, hx, hpx⟩
    exact (List.any_eq_true.mpr ⟨x, h.mem_iff.mp hx, hpx⟩).symm
  | false =>
    cases h2 : l2.any p with
    | false => rfl
    | true =>
      rcases List.any_eq_true.mp h2 with ⟨x, hx, hpx⟩
      have : l1.any p = true := List.any_eq_true.mpr ⟨x, h.mem_iff.mpr hx, hpx⟩
      rw [h1] at this
      exact this

/-! First-failure position of the collection loops. -/

/-- The `[]string` membership loop stops at the first element outside the
set and reports its position (offset by the loop's starting index). -/
theorem inStrSliceLoop_first_fail (tokensSet : List GoStr) :
    ∀ (xs : List GoStr) (i : Nat), (∃ e ∈ xs, e ∉ tokensSet) →
      inStrSliceLoop tokensSet i xs =
        .fail (.validation (.strPosNotAllowed
          (i + xs.findIdx (fun e => decide (e ∉ tokensSet))))) := by
  intro xs
  induction xs with
  | nil =>
    rintro i ⟨e, he, _⟩
    exact absurd he (List.not_mem_nil e)
  | cons a rest ih =>
    rintro i hex
    simp only [inStrSliceLoop]
    by_cases ha : a ∈ tokensSet
    · rw [if_pos ha]
      have hex' : ∃ e ∈ rest, e ∉ tokensSet := by
        rcases hex with ⟨e, he, hne⟩
        rcases List.mem_cons.mp he with rfl | hmem
        · exact absurd ha hne
        · exact ⟨e, hmem, hne⟩
      rw [ih (i + 1) hex']
      have harith :
          (i + 1) + rest.findIdx (fun e => decide (e ∉ tokensSet)) =
            i + (a :: rest).findIdx (fun e => decide (e ∉ tokensSet)) := by
        rw [List.findIdx_cons]
        simp only [ha, decide_not, decide_eq_true_eq]
        simp [ha]
        omega
      rw [harith]
    · rw [if_neg ha, List.findIdx_cons]
      simp [ha]

/-- The `[]int` minimum loop stops at the first element below the bound
and reports its position. -/
theorem minIntSliceLoop_first_fail (mn : Int) :
    ∀ (xs : List Int) (i : Nat), (∃ e ∈ xs, e < mn) →
      minIntSliceLoop mn i xs =
        .fail (.validation (.intPosLess
          (i + xs.findIdx (fun e => decide (e < mn))))) := by
  intro xs
  induction xs with
  | nil =>
    rintro i ⟨e, he, _⟩
    exact absurd he (List.not_mem_nil e)
  | cons a rest ih =>
    rintro i hex
    simp only [minIntSliceLoop]
    by_cases ha : a < mn
    · rw [if_pos ha, List.findIdx_cons]
      simp [ha]
    · rw [if_neg ha]
      have hex' : ∃ e ∈ rest, e < mn := by
        rcases hex with ⟨e, he, hlt⟩
        rcases List.mem_cons.mp he with rfl | hmem
        · exact absurd hlt ha
        · exact ⟨e, hmem, hlt⟩
      rw [ih (i + 1) hex']
      have harith :
          (i + 1) + rest.findIdx (fun e => decide (e < mn)) =
            i + (a :: rest).findIdx (fun e => decide (e < mn)) := by
        rw [List.findIdx_cons]
        simp [ha]
        omega
      rw [harith]

/-! Order-independence of the checkers away from the one order-sensitive
case (scalar `int` membership with an unparseable token). -/

/-- A field is insensitive to the token-set traversal order unless it is
an `in` rule on a scalar integer with some unparseable token. -/
def intInRuleFullyNumeric (f : Field) : Bool :=
  match f.tag, f.value with
  | some tagValue, GoValue.int _ =>
    match splitOnChar ':' tagValue with
    | [kind, param] =>
      if kind = gs "in" then
        (splitOnChar ',' param).all (fun t => (atoi t).isSome)
      else true
    | _ => true
  | _, _ => true

theorem lookupRule_inR (kind : GoStr) (h : lookupRule kind = some RuleKind.inR) :
    kind = gs "in" := by
  unfold lookupRule at h
  split_ifs at h <;> simp_all

/-- Non-integer values never reach the order-sensitive search. -/
theorem validateIn_ord_irrel (ord1 ord2 : List GoStr → List GoStr)
    (v : GoValue) (value : GoStr) (hv : ∀ n : Int, v ≠ .int n) :
    validateIn ord1 v value = validateIn ord2 v value := by
  cases v
  · rfl
  · exact absurd rfl (hv _)
  · rfl
  · rfl
  · rfl

/-- With a fully numeric token list, the scalar-`int` membership result is
the same for any two admissible traversals. -/
theorem validateIn_int_ord (ord1 ord2 : List GoStr → List GoStr) (n : Int)
    (value : GoStr)
    (h1 : (ord1 (tokensSetOf (splitOnChar ',' value))).Perm
            (tokensSetOf (splitOnChar ',' value)))
    (h2 : (ord2 (tokensSetOf (splitOnChar ',' value))).Perm
            (tokensSetOf (splitOnChar ',' value)))
    (hall : ∀ t ∈ splitOnChar ',' value, (atoi t).isSome = true) :
    validateIn ord1 (.int n) value = validateIn ord2 (.int n) value := by
  by_cases hv : value.length = 0
  · simp only [validateIn, if_pos hv]
  · have hT : ∀ t ∈ tokensSetOf (splitOnChar ',' value), (atoi t).isSome = true :=
      fun t ht => hall t ((mem_tokensSetOf t _).mp ht)
    have ha1 : ∀ t ∈ ord1 (tokensSetOf (splitOnChar ',' value)),
        (atoi t).isSome = true :=
      fun t ht => hT t (h1.mem_iff.mp ht)
    have ha2 : ∀ t ∈ ord2 (tokensSetOf (splitOnChar ',' value)),
        (atoi t).isSome = true :=
      fun t ht => hT t (h2.mem_iff.mp ht)
    simp only [validateIn, if_neg hv]
    rw [inIntSearch_all_some n _ ha1, inIntSearch_all_some n _ ha2,
        any_eq_of_perm _ (h1.trans h2.symm)]

/-- Two admissible traversal oracles give every order-insensitive field
the same outcome. -/
theorem fieldOutcome_ord_congr (ord1 ord2 : List GoStr → List GoStr)
    (h1 : ∀ l, (ord1 l).Perm l) (h2 : ∀ l, (ord2 l).Perm l)
    (f : Field) (hnum : intInRuleFullyNumeric f = true) :
    fieldOutcome ord1 f = fieldOutcome ord2 f := by
  obtain ⟨tg, ex, vl⟩ := f
  rcases tg with _ | tagValue
  · rfl
  · rcases ex
    · rfl
    · rcases hsp : splitOnChar ':' tagValue with _ | ⟨kind, _ | ⟨param, more⟩⟩
      · simp only [fieldOutcome, hsp]
      · simp only [fieldOutcome, hsp]
      · cases more with
        | cons m ms => simp only [fieldOutcome, hsp]
        | nil =>
          rcases hlk : lookupRule kind with _ | r
          · simp only [fieldOutcome, hsp, hlk]
          · have hrun : runChecker ord1 r vl param =
                runChecker ord2 r vl param := by
              cases r
              · rfl
              · show validateIn ord1 vl param = validateIn ord2 vl param
                rcases vl with s | m | xs | xs | _
                · exact validateIn_ord_irrel _ _ _ _ (fun n h => by cases h)
                · have hkind := lookupRule_inR kind hlk
                  simp only [intInRuleFullyNumeric, hsp, if_pos hkind] at hnum
                  exact validateIn_int_ord ord1 ord2 m param (h1 _) (h2 _)
                    (List.all_eq_true.mp hnum)
                · exact validateIn_ord_irrel _ _ _ _ (fun n h => by cases h)
                · exact validateIn_ord_irrel _ _ _ _ (fun n h => by cases h)
                · exact validateIn_ord_irrel _ _ _ _ (fun n h => by cases h)
              · rfl
              · rfl
              · rfl
            simp only [fieldOutcome, hsp, hlk, hrun]

/-- The whole field loop is oracle-independent on order-insensitive
records. -/
theorem collectFields_ord_congr (ord1 ord2 : List GoStr → List GoStr)
    (h1 : ∀ l, (ord1 l).Perm l) (h2 : ∀ l, (ord2 l).Perm l)
    (fields : List Field)
    (hnum : ∀ f ∈ fields, intInRuleFullyNumeric f = true) :
    collectFields ord1 fields = collectFields ord2 fields := by
  induction fields with
  | nil => rfl
  | cons f rest ih =>
    have hf := fieldOutcome_ord_congr ord1 ord2 h1 h2 f
      (hnum f (List.mem_cons_self _ _))
    have hr := ih (fun g hg => hnum g (List.mem_cons_of_mem _ hg))
    unfold collectFields
    rw [hf, hr]

/-! The claims. -/

/-- C1: the claim states that for every `between` parameter whose limits
cannot be parsed — an empty parameter, a missing comma, a non-numeric
first limit — the checker returns `InvalidRuleSyntax`, never panics and
never reports a value failure.  The code does not satisfy this: with
fewer than two comma-separated parts (`"10"`, `""`) the unchecked index
`limits[1]` panics, and because the first limit's parse error is
overwritten by the second parse, `"x,5"` is evaluated with the lower
limit silently taken as 0 — succeeding on a 3-character string and
reporting a plain value failure on a 10-character one. -/
theorem c1_between_bad_limits_code_bug :
    validateBetween (.str (gs "abc")) (gs "10") = .panics ∧
    validateBetween (.str (gs "abc")) (gs "") = .panics ∧
    validateBetween (.str (gs "abc")) (gs "x,5") = .ok ∧
    validateBetween (.str (gs "abcdefghij")) (gs "x,5") =
      .fail (.validation .strLenNotAllowed) := by
  decide

/-- C2 counterexample: the claim includes nil among the non-struct inputs
for which `Validate` returns the not-a-record error without panicking,
but on a nil input `reflect.TypeOf` returns nil and the `Kind()` call
panics. -/
theorem c2_nil_input_panics :
    Validate (fun l => l) GoAny.nilAny = ValidateResult.panics ∧
    ValidateResult.panics ≠ ValidateResult.notStruct := by
  decide

/-- C2 (amended): for every non-nil input whose dynamic type is not a
struct — maps, scalars, pointers, including a pointer to an interface —
`Validate` returns the `ErrNotStruct` error alone, before any field
processing; for a nil input it panics instead. -/
theorem c2_nonstruct_rejected (ord : List GoStr → List GoStr) :
    Validate ord .mapAny = .notStruct ∧
    Validate ord .stringAny = .notStruct ∧
    Validate ord .intAny = .notStruct ∧
    Validate ord .ptrAny = .notStruct ∧
    Validate ord .nilAny = .panics :=
  ⟨rfl, rfl, rfl, rfl, rfl⟩

/-- C3 counterexample: the claim says an unparseable token always forces
`InvalidRuleSyntax` regardless of whether another token matches the field
value, but under the set traversal that visits the matching token first
the checker returns success on `in:5,x` against the value 5. -/
theorem c3_match_can_mask_bad_token :
    validateIn (fun l => l) (GoValue.int 5) (gs "5,x") = CheckOutcome.ok := by
  decide

/-- C3 (amended): for a scalar integer field, an unparseable membership
token forces `InvalidRuleSyntax` for every admissible traversal order of
the token set provided no token parses to the field's value; when a
matching token exists the outcome depends on the traversal order. -/
theorem c3_bad_token_syntax_error (ord : List GoStr → List GoStr) (n : Int)
    (value : GoStr)
    (hperm : (ord (tokensSetOf (splitOnChar ',' value))).Perm
               (tokensSetOf (splitOnChar ',' value)))
    (hne : value ≠ [])
    (hbad : ∃ t ∈ splitOnChar ',' value, atoi t = none)
    (hnomatch : ∀ t ∈ splitOnChar ',' value, atoi t ≠ some n) :
    validateIn ord (GoValue.int n) value =
      .fail (.validation .invalidSyntax) := by
  have hlen : ¬ value.length = 0 := by
    intro h
    exact hne (List.length_eq_zero.mp h)
  simp only [validateIn, if_neg hlen]
  apply inIntSearch_syntax_of_bad_no_match
  · rcases hbad with ⟨t, ht, hb⟩
    exact ⟨t, hperm.mem_iff.mpr ((mem_tokensSetOf t _).mpr ht), hb⟩
  · intro t ht
    exact hnomatch t ((mem_tokensSetOf t _).mp (hperm.mem_iff.mp ht))

/-- Witness for C3 (amended) at `in:5,x` against the value 2. -/
theorem c3_bad_token_syntax_error_witness :
    ((fun (l : List GoStr) => l) (tokensSetOf (splitOnChar ',' (gs "5,x")))).Perm
        (tokensSetOf (splitOnChar ',' (gs "5,x"))) ∧
    gs "5,x" ≠ [] ∧
    (∃ t ∈ splitOnChar ',' (gs "5,x"), atoi t = none) ∧
    (∀ t ∈ splitOnChar ',' (gs "5,x"), atoi t ≠ some 2) ∧
    validateIn (fun l => l) (GoValue.int 2) (gs "5,x") =
      .fail (.validation .invalidSyntax) :=
  ⟨List.Perm.refl _, by decide, by decide, by decide,
   c3_bad_token_syntax_error (fun l => l) 2 (gs "5,x") (List.Perm.refl _)
     (by decide) (by decide) (by decide)⟩

/-- C4: a field that carries a validation annotation but is unexported
contributes exactly one `ErrValidateForUnexportedFields` error and the
loop continues with the remaining fields.  The statement quantifies over
every tag value (malformed ones included) and every field value: the
annotation is never split, looked up or evaluated, because exportedness
is checked right after the tag lookup. -/
theorem c4_unexported_before_parsing (ord : List GoStr → List GoStr)
    (t : GoStr) (v : GoValue) (rest : List Field) :
    fieldOutcome ord ⟨some t, false, v⟩ = .collect .unexported ∧
    collectFields ord (⟨some t, false, v⟩ :: rest) =
      (match collectFields ord rest with
       | .done vs => .done (VErr.unexported :: vs)
       | r => r) :=
  ⟨rfl, rfl⟩

/-- C5: whenever the field loop completes (no checker panics), the
aggregate is exactly the per-field errors filtered in declaration order —
hence at most one entry per field and at most as many entries as fields —
and a run that collects zero entries returns nil rather than an empty
aggregate; a struct with no annotated fields always returns nil. -/
theorem c5_aggregate_invariants (ord : List GoStr → List GoStr)
    (fields : List Field)
    (hnp : ∀ f ∈ fields, fieldOutcome ord f ≠ FieldOutcome.panicF) :
    Validate ord (.structAny fields) =
      (if fields.filterMap (fieldErr ord) = [] then .ok
       else .aggregate (fields.filterMap (fieldErr ord))) ∧
    (fields.filterMap (fieldErr ord)).length ≤ fields.length ∧
    ((∀ f ∈ fields, f.tag = none) → Validate ord (.structAny fields) = .ok) := by
  have hc := collectFields_eq_filterMap ord fields hnp
  refine ⟨?_, List.length_filterMap_le _ _, ?_⟩
  · by_cases he : fields.filterMap (fieldErr ord) = []
    · rw [if_pos he]
      rw [he] at hc
      simp only [Validate, hc]
    · rw [if_neg he]
      rcases hlist : fields.filterMap (fieldErr ord) with _ | ⟨a, l⟩
      · exact absurd hlist he
      · rw [hlist] at hc
        simp only [Validate, hc, hlist]
  · intro hall
    have hfm : fields.filterMap (fieldErr ord) = [] := by
      rw [List.filterMap_eq_nil_iff]
      intro f hf
      simp [fieldErr, fieldOutcome, hall f hf]
    rw [hfm] at hc
    simp only [Validate, hc]

/-- Witness for C5 at a one-field record failing its length rule. -/
theorem c5_aggregate_invariants_witness :
    (∀ f ∈ [({ tag := some (gs "len:1"), exported := true,
               value := GoValue.str (gs "ab") } : Field)],
       fieldOutcome (fun l => l) f ≠ FieldOutcome.panicF) ∧
    (Validate (fun l => l)
        (.structAny [{ tag := some (gs "len:1"), exported := true,
                       value := GoValue.str (gs "ab") }]) =
      (if [({ tag := some (gs "len:1"), exported := true,
              value := GoValue.str (gs "ab") } : Field)].filterMap
            (fieldErr (fun l => l)) = [] then .ok
       else .aggregate
         ([({ tag := some (gs "len:1"), exported := true,
              value := GoValue.str (gs "ab") } : Field)].filterMap
            (fieldErr (fun l => l)))) ∧
      ([({ tag := some (gs "len:1"), exported := true,
           value := GoValue.str (gs "ab") } : Field)].filterMap
          (fieldErr (fun l => l))).length ≤ 1 ∧
      ((∀ f ∈ [({ tag := some (gs "len:1"), exported := true,
                  value := GoValue.str (gs "ab") } : Field)], f.tag = none) →
        Validate (fun l => l)
          (.structAny [{ tag := some (gs "len:1"), exported := true,
                         value := GoValue.str (gs "ab") }]) = .ok)) :=
  ⟨by decide,
   c5_aggregate_invariants (fun l => l)
     [{ tag := some (gs "len:1"), exported := true,
        value := GoValue.str (gs "ab") }] (by decide)⟩

/-- C6: collection checks stop at the first failing element and report its
0-based position — shown for the `[]string` membership loop and the
`[]int` minimum loop, whose positions are the first index failing the
respective test — and a field whose checker fails contributes exactly one
entry to the aggregate, however many of its elements fail. -/
theorem c6_first_failing_element :
    (∀ (ord : List GoStr → List GoStr) (value : GoStr) (xs : List GoStr),
      value ≠ [] →
      (∃ e ∈ xs, e ∉ tokensSetOf (splitOnChar ',' value)) →
      validateIn ord (GoValue.strSlice xs) value =
        .fail (.validation (.strPosNotAllowed
          (xs.findIdx (fun e =>
            decide (e ∉ tokensSetOf (splitOnChar ',' value))))))) ∧
    (∀ (value : GoStr) (xs : List Int) (mn : Int),
      atoi value = some mn →
      (∃ e ∈ xs, e < mn) →
      validateMin (GoValue.intSlice xs) value =
        .fail (.validation (.intPosLess
          (xs.findIdx (fun e => decide (e < mn)))))) ∧
    (∀ (ord : List GoStr → List GoStr) (f : Field) (e : VErr),
      fieldOutcome ord f = .collect e →
      Validate ord (.structAny [f]) = .aggregate [e]) := by
  refine ⟨?_, ?_, ?_⟩
  · intro ord value xs hne hex
    have hlen : ¬ value.length = 0 := by
      intro h
      exact hne (List.length_eq_zero.mp h)
    simp only [validateIn, if_neg hlen]
    rw [inStrSliceLoop_first_fail (tokensSetOf (splitOnChar ',' value)) xs 0 hex,
        Nat.zero_add]
  · intro value xs mn hv hex
    simp only [validateMin, hv]
    rw [minIntSliceLoop_first_fail mn xs 0 hex, Nat.zero_add]
  · intro ord f e hf
    have hc : collectFields ord [f] = .done [e] := by
      simp only [collectFields, hf]
    simp only [Validate, hc]

/-- Witness for C6: membership over `["ab", "zz", "qq"]` and minimum over
`[5, 1, 0]`, each failing first at position 1, and the corresponding
one-entry aggregate. -/
theorem c6_first_failing_element_witness :
    (gs "ab,cd" ≠ [] ∧
     (∃ e ∈ [gs "ab", gs "zz", gs "qq"],
        e ∉ tokensSetOf (splitOnChar ',' (gs "ab,cd"))) ∧
     validateIn (fun l => l) (GoValue.strSlice [gs "ab", gs "zz", gs "qq"])
         (gs "ab,cd") =
       .fail (.validation (.strPosNotAllowed 1))) ∧
    (atoi (gs "3") = some 3 ∧
     (∃ e ∈ [(5 : Int), 1, 0], e < 3) ∧
     validateMin (GoValue.intSlice [5, 1, 0]) (gs "3") =
       .fail (.validation (.intPosLess 1))) ∧
    (fieldOutcome (fun l => l)
        ⟨some (gs "min:3"), true, GoValue.intSlice [5, 1, 0]⟩ =
          .collect (.intPosLess 1) ∧
     Validate (fun l => l)
        (.structAny [⟨some (gs "min:3"), true, GoValue.intSlice [5, 1, 0]⟩]) =
       .aggregate [.intPosLess 1]) := by
  refine ⟨⟨by decide, by decide, ?_⟩, ⟨by decide, by decide, ?_⟩,
          ⟨by decide, ?_⟩⟩
  · exact (c6_first_failing_element.1 (fun l => l) (gs "ab,cd")
      [gs "ab", gs "zz", gs "qq"] (by decide) (by decide)).trans (by decide)
  · exact (c6_first_failing_element.2.1 (gs "3") [5, 1, 0] 3 (by decide)
      (by decide)).trans (by decide)
  · exact c6_first_failing_element.2.2 (fun l => l)
      ⟨some (gs "min:3"), true, GoValue.intSlice [5, 1, 0]⟩
      (.intPosLess 1) (by decide)

/-- C7 counterexample: the claim says two validations of the same record
always agree and a record once validated as nil re-validates to nil, but
the scalar-int membership rule `in:5,x` on the value 5 yields nil under
the traversal that visits "5" first and an `InvalidRuleSyntax` aggregate
under the reversed traversal — both admissible iteration orders of the
same Go map. -/
theorem c7_two_runs_differ :
    Validate (fun l => l)
        (.structAny [⟨some (gs "in:5,x"), true, GoValue.int 5⟩]) = .ok ∧
    Validate (fun l => l.reverse)
        (.structAny [⟨some (gs "in:5,x"), true, GoValue.int 5⟩]) =
      .aggregate [.invalidSyntax] := by
  decide

/-- C7 (amended): `Validate` is a pure function of the record and the
token-set traversal order (the model has no mutable state, so the input
is never mutated and equal traversals give equal results); moreover, for
every record in which no scalar-integer membership rule carries an
unparseable token, the result is the same under any two admissible
traversal orders — so such records, once valid, re-validate to nil. -/
theorem c7_revalidation_deterministic (ord1 ord2 : List GoStr → List GoStr)
    (h1 : ∀ l, (ord1 l).Perm l) (h2 : ∀ l, (ord2 l).Perm l)
    (fields : List Field)
    (hnum : ∀ f ∈ fields, intInRuleFullyNumeric f = true) :
    Validate ord1 (.structAny fields) = Validate ord2 (.structAny fields) := by
  have hc := collectFields_ord_congr ord1 ord2 h1 h2 fields hnum
  simp only [Validate, hc]

/-- Witness for C7 (amended) at a fully numeric membership rule. -/
theorem c7_revalidation_deterministic_witness :
    intInRuleFullyNumeric ⟨some (gs "in:5,7"), true, GoValue.int 5⟩ = true ∧
    Validate (fun l => l)
        (.structAny [⟨some (gs "in:5,7"), true, GoValue.int 5⟩]) =
      Validate (fun l => l.reverse)
        (.structAny [⟨some (gs "in:5,7"), true, GoValue.int 5⟩]) :=
  ⟨by decide,
   c7_revalidation_deterministic (fun l => l) (fun l => l.reverse)
     (fun l => List.Perm.refl l) (fun l => List.reverse_perm l)
     [⟨some (gs "in:5,7"), true, GoValue.int 5⟩] (by decide)⟩

/-- C8: every non-empty aggregate `Validate` returns stringifies to the
concatenation, with no separator, of its members' messages, and its
members are the per-field failures in field-declaration order. -/
theorem c8_error_string_concat (ord : List GoStr → List GoStr)
    (fields : List Field) (vs : List VErr)
    (h : Validate ord (.structAny fields) = .aggregate vs) :
    validationErrorsError vs = (vs.map errMessage).flatten ∧
    vs = fields.filterMap (fieldErr ord) := by
  have hinv := validate_aggregate_inv ord fields vs h
  refine ⟨?_, collectFields_done_eq ord fields vs hinv.1⟩
  unfold validationErrorsError
  rw [foldl_append_eq_join]
  simp

/-- Witness for C8 at a one-field record failing its length rule. -/
theorem c8_error_string_concat_witness :
    Validate (fun l => l)
        (.structAny [⟨some (gs "len:1"), true, GoValue.str (gs "ab")⟩]) =
      .aggregate [.lengthsDontMatch] ∧
    validationErrorsError [.lengthsDontMatch] =
      ([VErr.lengthsDontMatch].map errMessage).flatten ∧
    [VErr.lengthsDontMatch] =
      [(⟨some (gs "len:1"), true, GoValue.str (gs "ab")⟩ : Field)].filterMap
        (fieldErr (fun l => l)) :=
  ⟨by decide,
   (c8_error_string_concat (fun l => l)
     [⟨some (gs "len:1"), true, GoValue.str (gs "ab")⟩]
     [.lengthsDontMatch] (by decide)).1,
   (c8_error_string_concat (fun l => l)
     [⟨some (gs "len:1"), true, GoValue.str (gs "ab")⟩]
     [.lengthsDontMatch] (by decide)).2⟩

/-- C9: no checker ever fails with anything but a `ValidationError`, so
the defensive abort branch in `Validate` is unreachable: for every input
and traversal order the result is never the bare internal error, and a
run that returns at all returns nil, `ErrNotStruct`, or a non-empty
aggregate. -/
theorem c9_no_internal_abort (ord : List GoStr → List GoStr) (v : GoAny) :
    (∀ s : GoStr, Validate ord v ≠ .internalErr s) ∧
    (Validate ord v ≠ .panics →
      Validate ord v = .ok ∨ Validate ord v = .notStruct ∨
        ∃ vs, Validate ord v = .aggregate vs ∧ vs ≠ []) := by
  cases v with
  | nilAny =>
    exact ⟨fun s h => by simp [Validate] at h, fun hp => absurd rfl hp⟩
  | mapAny =>
    exact ⟨fun s h => by simp [Validate] at h, fun _ => Or.inr (Or.inl rfl)⟩
  | stringAny =>
    exact ⟨fun s h => by simp [Validate] at h, fun _ => Or.inr (Or.inl rfl)⟩
  | intAny =>
    exact ⟨fun s h => by simp [Validate] at h, fun _ => Or.inr (Or.inl rfl)⟩
  | ptrAny =>
    exact ⟨fun s h => by simp [Validate] at h, fun _ => Or.inr (Or.inl rfl)⟩
  | structAny fields =>
    rcases hc : collectFields ord fields with vs | s' | _
    · cases vs with
      | nil =>
        have hok : Validate ord (.structAny fields) = .ok := by
          simp only [Validate, hc]
        exact ⟨fun s h => by rw [hok] at h; exact ValidateResult.noConfusion h,
               fun _ => Or.inl hok⟩
      | cons a l =>
        have hag : Validate ord (.structAny fields) = .aggregate (a :: l) := by
          simp only [Validate, hc]
        exact ⟨fun s h => by rw [hag] at h; exact ValidateResult.noConfusion h,
               fun _ => Or.inr (Or.inr ⟨a :: l, hag, by simp⟩)⟩
    · exact absurd hc (collectFields_not_aborted ord fields s')
    · have hp : Validate ord (.structAny fields) = .panics := by
        simp only [Validate, hc]
      exact ⟨fun s h => by rw [hp] at h; exact ValidateResult.noConfusion h,
             fun hnp => absurd hp hnp⟩

/-- Witness for C9 at the empty struct. -/
theorem c9_no_internal_abort_witness :
    Validate (fun l => l) (GoAny.structAny []) ≠
      ValidateResult.internalErr (gs "boom") ∧
    (Validate (fun l => l) (GoAny.structAny []) = .ok ∨
     Validate (fun l => l) (GoAny.structAny []) = .notStruct ∨
     ∃ vs, Validate (fun l => l) (GoAny.structAny []) = .aggregate vs ∧
       vs ≠ []) :=
  ⟨(c9_no_internal_abort (fun l => l) (GoAny.structAny [])).1 (gs "boom"),
   (c9_no_internal_abort (fun l => l) (GoAny.structAny [])).2 (by decide)⟩

/-- C10: comma-separated parts of a `between` parameter beyond the first
two are silently ignored — the checker's behaviour on `lo :: hi :: rest`
limits is that on `[lo, hi]` for every field value, so `"1,5,999"` is
evaluated exactly like `"1,5"` and, on a string field, is not a syntax
failure. -/
theorem c10_between_ignores_extra_parts (v : GoValue) (l0 l1 : GoStr)
    (rest : List GoStr) (s : GoStr) :
    betweenLimits v (l0 :: l1 :: rest) = betweenLimits v [l0, l1] ∧
    validateBetween v (gs "1,5,999") = validateBetween v (gs "1,5") ∧
    validateBetween (.str s) (gs "1,5,999") ≠
      .fail (.validation .invalidSyntax) := by
  refine ⟨rfl, ?_, ?_⟩
  · unfold validateBetween
    have hs1 : splitOnChar ',' (gs "1,5,999") = [gs "1", gs "5", gs "999"] := by
      decide
    have hs2 : splitOnChar ',' (gs "1,5") = [gs "1", gs "5"] := by decide
    rw [hs1, hs2]
    rfl
  · unfold validateBetween
    have hs1 : splitOnChar ',' (gs "1,5,999") = [gs "1", gs "5", gs "999"] := by
      decide
    rw [hs1]
    intro hcon
    have ha : atoi (gs "5") = some 5 := by decide
    simp only [betweenLimits, ha] at hcon
    split at hcon
    · exact CheckOutcome.noConfusion hcon
    · simp at hcon

end TagValidation
